import Mathlib

/-!
Verification development for the musicxml-chord-analysis repository.

Strings are modelled as `List Char`.  The Python regular expressions of
`rn_utils.py` and `scan_rn_patterns.py` are translated into executable
character scanners; each scanner is named after (and documented with) the
regex it embeds.  All scanners are deterministic translations: every
alternation in the source regexes is first-letter disjoint or ordered
longest-first, so no backtracking is required (noted case by case below).
-/

/-! ## Character classes -/

/-- Python `\w` restricted to the alphabet handled by this program:
ASCII alphanumerics and underscore, plus the letters `ø Ø Δ δ` that occur
in the chord vocabulary (they are Unicode letters, hence word characters
for Python's `re`).  The degree sign `°` is not a word character. -/
def isWordChar (c : Char) : Bool :=
  c.isAlphanum || c = '_' || c = 'ø' || c = 'Ø' || c = 'Δ' || c = 'δ'

/-- Python `\s` (ASCII range, which is all the inputs contain). -/
def isSpaceChar (c : Char) : Bool :=
  c = ' ' || c = '\t' || c = '\n' || c = '\r' || c = '\x0b' || c = '\x0c'

/-- Head of the list is a word character (used for `\b` after a match). -/
def isWordHead : List Char → Bool
  | [] => false
  | c :: _ => isWordChar c

/-- Python `str.lower` on the alphabet used here: ASCII plus `Ø → ø` and
`Δ → δ`. -/
def toLowerChar (c : Char) : Char :=
  if 'A' ≤ c && c ≤ 'Z' then Char.ofNat (c.toNat + 32)
  else if c = 'Ø' then 'ø'
  else if c = 'Δ' then 'δ'
  else c

/-- Python `str.upper` on ASCII (degrees are roman letters). -/
def toUpperChar (c : Char) : Char :=
  if 'a' ≤ c && c ≤ 'z' then Char.ofNat (c.toNat - 32) else c

def toLowerList (l : List Char) : List Char := l.map toLowerChar

def toUpperList (l : List Char) : List Char := l.map toUpperChar

/-- The regex class `[A-Ga-g]` (pitch letters). -/
def isPitchLetter (c : Char) : Bool :=
  ('A' ≤ c && c ≤ 'G') || ('a' ≤ c && c ≤ 'g')

/-- The regex class `[a-g]` (lower-case pitch letters). -/
def isLowerPitch (c : Char) : Bool := 'a' ≤ c && c ≤ 'g'

/-- Python `str.islower`: at least one cased character and no upper-case
one (ASCII suffices for the degree strings this is applied to). -/
def isLowerStr (l : List Char) : Bool :=
  l.any (fun c => c.isAlpha) && l.all (fun c => !c.isUpper)

/-! ## Generic substring search / substitution -/

/-- Python `needle in hay` (substring containment). -/
def containsStr (needle : List Char) : List Char → Bool
  | [] => needle.isEmpty
  | c :: cs => needle.isPrefixOf (c :: cs) || containsStr needle cs

/-- `re.search` for a pattern with no left context: try `pAt` at every
start position (including the final empty suffix). -/
def searchP (pAt : List Char → Bool) : List Char → Bool
  | [] => pAt []
  | c :: cs => pAt (c :: cs) || searchP pAt cs

/-- Case-insensitive prefix match against a lower-case pattern; returns
the remainder on success. -/
def ciPref : List Char → List Char → Option (List Char)
  | [], s => some s
  | _ :: _, [] => none
  | p :: ps, c :: cs => if toLowerChar c = p then ciPref ps cs else none

/-- Like `ciPref` but also returns the matched characters in their
original case (for back-reference replacements). -/
def ciPrefCap : List Char → List Char → Option (List Char × List Char)
  | [], s => some ([], s)
  | _ :: _, [] => none
  | p :: ps, c :: cs =>
    if toLowerChar c = p then
      match ciPrefCap ps cs with
      | some (cap, r) => some (c :: cap, r)
      | none => none
    else none

/-- `re.sub` driver: scan left to right; `tryAt` receives the flag
"previous character is a word character" (for a leading `\b`) and the
current suffix, and returns `some (replacement, remainder)` on a match.
All patterns fed to this driver end in a word character (a digit, `7`,
or `Δ`), so after a match the flag is `true`.  The fuel is the input
length; every match consumes at least one character, so it suffices. -/
def subF (tryAt : Bool → List Char → Option (List Char × List Char)) :
    Nat → Bool → List Char → List Char
  | 0, _, l => l
  | _ + 1, _, [] => []
  | f + 1, prevW, c :: cs =>
    match tryAt prevW (c :: cs) with
    | some (rep, rest) => rep ++ subF tryAt f true rest
    | none => c :: subF tryAt f (isWordChar c) cs

def runSub (tryAt : Bool → List Char → Option (List Char × List Char))
    (l : List Char) : List Char :=
  subF tryAt l.length false l

/-! ## Literal prettifiers (`rn_utils.prettify_literal`) -/

/-- `_ROOT_PLUSMINUS = re.compile(r"\b([A-Ga-g])([+-])")` applied via
`_root_plus_minus_to_acc`: a pitch letter at a word boundary immediately
followed by `+`/`-` has the sign rewritten to `#`/`b`.  The regex has no
trailing context; after a match, scanning resumes after the sign (a
non-word character, so the next position is again at a boundary). -/
def rpmAux : Bool → List Char → List Char
  | _, [] => []
  | _, [c] => [c]
  | prevW, c :: s :: rest =>
    if !prevW && isPitchLetter c && (s = '+' || s = '-') then
      c :: (if s = '-' then 'b' else '#') :: rpmAux false rest
    else
      c :: rpmAux (isWordChar c) (s :: rest)

def root_plus_minus_to_acc (l : List Char) : List Char := rpmAux false l

/-- Alternation `(?:subtract|minus|no|omit)` (first letters disjoint). -/
def susAlt (s : List Char) : Option (List Char) :=
  match ciPref ("subtract".toList) s with
  | some r => some r
  | none =>
    match ciPref ("minus".toList) s with
    | some r => some r
    | none =>
      match ciPref ("no".toList) s with
      | some r => some r
      | none => ciPref ("omit".toList) s

/-- Common tail `\s*3\b` of the sus4 variants. -/
def susTail3 (s : List Char) : Option (List Char) :=
  match s.dropWhile isSpaceChar with
  | '3' :: r => if isWordHead r then none else some r
  | _ => none

/-- `\badd\s*4\s*(?:subtract|minus|no|omit)\s*3\b` (re.I), replaced by
`sus4`. -/
def trySus1 (prevW : Bool) (s : List Char) : Option (List Char × List Char) :=
  if prevW then none else
  match ciPref ("add".toList) s with
  | none => none
  | some r1 =>
    match r1.dropWhile isSpaceChar with
    | '4' :: r2 =>
      match susAlt (r2.dropWhile isSpaceChar) with
      | none => none
      | some r3 =>
        match susTail3 r3 with
        | none => none
        | some r4 => some ("sus4".toList, r4)
    | _ => none

/-- `\badd4\s*(?:subtract|minus|no|omit)\s*3\b` (re.I). -/
def trySus2 (prevW : Bool) (s : List Char) : Option (List Char × List Char) :=
  if prevW then none else
  match ciPref ("add4".toList) s with
  | none => none
  | some r1 =>
    match susAlt (r1.dropWhile isSpaceChar) with
    | none => none
    | some r2 =>
      match susTail3 r2 with
      | none => none
      | some r3 => some ("sus4".toList, r3)

/-- `\badd\s*11\s*(?:no|omit)\s*3\b` (re.I). -/
def trySus3 (prevW : Bool) (s : List Char) : Option (List Char × List Char) :=
  if prevW then none else
  match ciPref ("add".toList) s with
  | none => none
  | some r1 =>
    match r1.dropWhile isSpaceChar with
    | '1' :: '1' :: r2 =>
      let r3 := r2.dropWhile isSpaceChar
      match (match ciPref ("no".toList) r3 with
             | some r => some r
             | none => ciPref ("omit".toList) r3) with
      | none => none
      | some r4 =>
        match susTail3 r4 with
        | none => none
        | some r5 => some ("sus4".toList, r5)
    | _ => none

/-- `\bsus\s*4\b` (re.I), replaced by `sus4`. -/
def trySus4 (prevW : Bool) (s : List Char) : Option (List Char × List Char) :=
  if prevW then none else
  match ciPref ("sus".toList) s with
  | none => none
  | some r1 =>
    match r1.dropWhile isSpaceChar with
    | '4' :: r2 => if isWordHead r2 then none else some ("sus4".toList, r2)
    | _ => none

/-- Greedy `(\s+sus4\b)+` tail of the dedup pattern; returns the
remainder after as many repetitions as possible (at least one). -/
def dedupReps : Nat → List Char → Option (List Char)
  | 0, _ => none
  | f + 1, s =>
    match s with
    | [] => none
    | c :: cs =>
      if !isSpaceChar c then none
      else
        match ciPref ("sus4".toList) (cs.dropWhile isSpaceChar) with
        | none => none
        | some r2 =>
          if isWordHead r2 then none
          else
            match dedupReps f r2 with
            | some r3 => some r3
            | none => some r2

/-- `re.sub(r"\b(sus4)(\s+\1\b)+", r"\1", s, flags=re.I)`: collapse a run
of repeated `sus4` words to the first occurrence (the replacement is the
captured group, keeping its original case). -/
def tryDedup (prevW : Bool) (s : List Char) : Option (List Char × List Char) :=
  if prevW then none else
  match ciPrefCap ("sus4".toList) s with
  | none => none
  | some (cap, r1) =>
    match dedupReps r1.length r1 with
    | none => none
    | some r2 => some (cap, r2)

/-- `_normalize_sus4`: the four `_SUS4_VARIANTS` substitutions in order,
then the repeated-`sus4` collapse. -/
def normalize_sus4 (s : List Char) : List Char :=
  runSub tryDedup
    (runSub trySus4 (runSub trySus3 (runSub trySus2 (runSub trySus1 s))))

/-- Head of the list is a whitespace character. -/
def isSpaceHead : List Char → Bool
  | [] => false
  | d :: _ => isSpaceChar d

/-- `re.sub(r"\s{2,}", " ", s)`: each maximal run of two or more
whitespace characters becomes one space (single whitespace characters are
left as they are). -/
def collapseSpacesAux (inRun : Bool) : List Char → List Char
  | [] => []
  | c :: cs =>
    if inRun && isSpaceChar c then collapseSpacesAux true cs
    else if isSpaceChar c && isSpaceHead cs then ' ' :: collapseSpacesAux true cs
    else c :: collapseSpacesAux false cs

def collapseSpaces (l : List Char) : List Char := collapseSpacesAux false l

/-- Python `str.strip`. -/
def trimWs (l : List Char) : List Char :=
  ((l.dropWhile isSpaceChar).reverse.dropWhile isSpaceChar).reverse

/-- `prettify_literal`: trim, accidental-glyph swap, sus4 folding,
whitespace collapse (empty input returned unchanged). -/
def prettify_literal (literal : List Char) : List Char :=
  if literal = [] then literal
  else collapseSpaces (normalize_sus4 (root_plus_minus_to_acc (trimWs literal)))

/-! ## RN normalization (`rn_utils.normalize_rn`) -/

/-- `MAJ7_ALIASES = re.compile(r"(?:\^7|M7|maj7|Δ7|Δ)", re.I)`, each
occurrence replaced by `maj7`.  Alternatives are tried in the regex
order. -/
def tryMaj7 (_ : Bool) (s : List Char) : Option (List Char × List Char) :=
  match s with
  | '^' :: '7' :: r => some ("maj7".toList, r)
  | _ =>
    match ciPref ("m7".toList) s with
    | some r => some ("maj7".toList, r)
    | none =>
      match ciPref ("maj7".toList) s with
      | some r => some ("maj7".toList, r)
      | none =>
        match s with
        | c :: '7' :: r =>
          if c = 'Δ' || c = 'δ' then some ("maj7".toList, r) else none
        | c :: r =>
          if c = 'Δ' || c = 'δ' then some ("maj7".toList, r) else none
        | [] => none

/-- Python `fig.replace(" ", "")` (removes space characters only). -/
def removeSpaces (l : List Char) : List Char := l.filter (fun c => c ≠ ' ')

/-- The degree alternation
`(VII|VI|V|IV|III|II|I|vii|vi|v|iv|iii|ii|i)` shared by `normalize_rn`,
`_DEGREE_HEAD` and the pattern-token regex. -/
def degreeAlternatives : List (List Char) :=
  [ "VII".toList, "VI".toList, "V".toList, "IV".toList, "III".toList,
    "II".toList, "I".toList, "vii".toList, "vi".toList, "v".toList,
    "iv".toList, "iii".toList, "ii".toList, "i".toList ]

/-- First alternative (regex order, i.e. longest listed first) that is a
prefix of `s`, with the remainder. -/
def degreeAlt (s : List Char) : Option (List Char × List Char) :=
  (degreeAlternatives.find? (fun d => d.isPrefixOf s)).map
    (fun d => (d, s.drop d.length))

/-- `^([b#]?)(degree)` — optional accidental then the degree alternation;
returns `(accidental, degree, rest)`.  If the first character is an
accidental but no degree follows, the regex falls back to an empty
accidental (which cannot succeed either, since no degree starts with
`b`/`#`). -/
def degreeHeadParse (t : List Char) : Option (List Char × List Char × List Char) :=
  match t with
  | [] => none
  | c :: cs =>
    if c = 'b' || c = '#' then
      match degreeAlt cs with
      | some (d, r) => some ([c], d, r)
      | none => (degreeAlt (c :: cs)).map (fun p => (([] : List Char), p.1, p.2))
    else
      (degreeAlt (c :: cs)).map (fun p => (([] : List Char), p.1, p.2))

/-- `normalize_rn`: remove spaces, unify maj7 spellings, then return
`<accidental><DEGREE><qual>` with the degree upper-cased, or the empty
string when the head does not parse. -/
def normalize_rn (fig : List Char) : List Char :=
  let t := runSub tryMaj7 (removeSpaces fig)
  match degreeHeadParse t with
  | none => []
  | some (acc, deg, qual) => acc ++ toUpperList deg ++ qual

/-- `_INVERSION_FIGS_RE = (?:65|64|63|62|54|53|43|42|32)`, removed. -/
def isInvPair (a b : Char) : Bool :=
  (a = '6' && (b = '5' || b = '4' || b = '3' || b = '2')) ||
  (a = '5' && (b = '4' || b = '3')) ||
  (a = '4' && (b = '3' || b = '2')) ||
  (a = '3' && b = '2')

def invStrip : List Char → List Char
  | a :: b :: rest =>
    if isInvPair a b then invStrip rest else a :: invStrip (b :: rest)
  | l => l

/-- The second, smaller inversion strip `(65|64|43|42|32)` used for the
fallback `qsimple`. -/
def isQsimplePair (a b : Char) : Bool :=
  (a = '6' && (b = '5' || b = '4')) ||
  (a = '4' && (b = '3' || b = '2')) ||
  (a = '3' && b = '2')

def qsimpleStrip : List Char → List Char
  | a :: b :: rest =>
    if isQsimplePair a b then qsimpleStrip rest else a :: qsimpleStrip (b :: rest)
  | l => l

/-! ## Literal quality detectors (applied to the lower-cased prettified
literal `lit_l`; the source regexes carry `re.I`, so matching the
lower-case spellings on the pre-lowered text is equivalent) -/

/-- `LIT_MINMAJ7_RE = (?:m\(maj7\)|mmaj7|mMaj7|m\^7|mΔ)` (re.I). -/
def litMinMaj7At (s : List Char) : Bool :=
  ("m(maj7)".toList).isPrefixOf s || ("mmaj7".toList).isPrefixOf s ||
  ("m^7".toList).isPrefixOf s ||
  (match s with
   | 'm' :: d :: _ => d = 'Δ' || d = 'δ'
   | _ => false)

def litMinMaj7 (ll : List Char) : Bool := searchP litMinMaj7At ll

/-- `LIT_DIM_RE = (?:dim7|°7|o7)` (re.I). -/
def litDimAt (s : List Char) : Bool :=
  ("dim7".toList).isPrefixOf s || ("°7".toList).isPrefixOf s ||
  ("o7".toList).isPrefixOf s

def litDim (ll : List Char) : Bool := searchP litDimAt ll

/-- `LIT_HALFDIM_RE = (?:m7b5|ø7)` (re.I). -/
def litHalfAt (s : List Char) : Bool :=
  ("m7b5".toList).isPrefixOf s || ("ø7".toList).isPrefixOf s

def litHalf (ll : List Char) : Bool := searchP litHalfAt ll

/-- Tail `\s*(?:7|9|13)\b` of `LIT_MAJ_FAM_RE`. -/
def majFamTail (s : List Char) : Bool :=
  match s.dropWhile isSpaceChar with
  | '7' :: r => !isWordHead r
  | '9' :: r => !isWordHead r
  | '1' :: '3' :: r => !isWordHead r
  | _ => false

/-- `LIT_MAJ_FAM_RE = (?:maj|\^|Δ)\s*(?:7|9|13)\b` (re.I). -/
def litMajFamAt (s : List Char) : Bool :=
  (match ciPref ("maj".toList) s with
   | some r => majFamTail r
   | none => false) ||
  (match s with
   | '^' :: r => majFamTail r
   | c :: r => (c = 'Δ' || c = 'δ') && majFamTail r
   | [] => false)

def litMajFam (ll : List Char) : Bool := searchP litMajFamAt ll

/-- `^[a-g][#b]?m(?=$|[/\s(]|[0-9])` — minor-triad marker, anchored at
the start of the literal. -/
def minTriadLook : List Char → Bool
  | [] => true
  | c :: _ => c = '/' || isSpaceChar c || c = '(' || c.isDigit

def minTriadM : List Char → Bool
  | 'm' :: r => minTriadLook r
  | _ => false

def minTriadHead (ll : List Char) : Bool :=
  match ll with
  | c :: rest =>
    isLowerPitch c &&
      (match rest with
       | a :: r2 => if a = '#' || a = 'b' then minTriadM r2 else minTriadM rest
       | [] => false)
  | [] => false

/-- `re.search(r"m7\b", lit_l)` (no boundary required before the `m`). -/
def searchM7B : List Char → Bool
  | 'm' :: '7' :: rest => !isWordHead rest || searchM7B ('7' :: rest)
  | _ :: cs => searchM7B cs
  | [] => false

/-- `re.search(r"m6\b", lit_l)`. -/
def searchM6B : List Char → Bool
  | 'm' :: '6' :: rest => !isWordHead rest || searchM6B ('6' :: rest)
  | _ :: cs => searchM6B cs
  | [] => false

/-- `6\s*(?:/|-|\+|add|\()\s*9\)?` — robust 6/9 marker (the optional
closing paren does not affect the boolean result). -/
def sixNineAt : List Char → Bool
  | '6' :: r =>
    let r1 := r.dropWhile isSpaceChar
    let sep : Option (List Char) :=
      match r1 with
      | '/' :: t => some t
      | '-' :: t => some t
      | '+' :: t => some t
      | 'a' :: 'd' :: 'd' :: t => some t
      | '(' :: t => some t
      | _ => none
    match sep with
    | some t =>
      match t.dropWhile isSpaceChar with
      | '9' :: _ => true
      | _ => false
    | none => false
  | _ => false

/-- `re.search(r"\b69\b", lit_l)` — boundary-delimited `69`. -/
def search69B (prevW : Bool) : List Char → Bool
  | '6' :: '9' :: rest =>
    (!prevW && !isWordHead rest) || search69B true ('9' :: rest)
  | c :: cs => search69B (isWordChar c) cs
  | [] => false

/-- `has_6_9` of `pretty_from_rn_and_literal`. -/
def has69lit (ll : List Char) : Bool := searchP sixNineAt ll || search69B false ll

/-- Python `lit_l.endswith("6")`. -/
def endsWith6 (ll : List Char) : Bool :=
  match ll.getLast? with
  | some c => c = '6'
  | none => false

/-- `is_dom7_lit`: a `7` in the literal and none of the tags
`maj7, maj, m7, ø7, o7` anywhere. -/
def isDom7Lit (ll : List Char) : Bool :=
  containsStr ("7".toList) ll &&
    !(containsStr ("maj7".toList) ll || containsStr ("maj".toList) ll ||
      containsStr ("m7".toList) ll || containsStr ("ø7".toList) ll ||
      containsStr ("o7".toList) ll)

/-- `re.search(r"\bmin\b", lit_l)`. -/
def searchMinWord (prevW : Bool) : List Char → Bool
  | 'm' :: 'i' :: 'n' :: rest =>
    (!prevW && !isWordHead rest) || searchMinWord true ('i' :: 'n' :: rest)
  | c :: cs => searchMinWord (isWordChar c) cs
  | [] => false

def litMinWord (ll : List Char) : Bool := searchMinWord false ll

/-- `re.search(r"(?<!\d)6(?![/\d])", qlow)` — a `6` neither preceded by a
digit nor followed by `/` or a digit. -/
def bare6Search (prevDigit : Bool) : List Char → Bool
  | '6' :: rest =>
    (!prevDigit &&
      !(match rest with
        | c :: _ => c = '/' || c.isDigit
        | [] => false)) || bare6Search true rest
  | c :: cs => bare6Search c.isDigit cs
  | [] => false

/-- Tension display suffix: `(b9)`, `(#9)`, `(b9,#9)` or empty. -/
def tensSuffix (ll : List Char) : List Char :=
  let t1 := containsStr ("b9".toList) ll
  let t2 := containsStr ("#9".toList) ll
  if t1 && t2 then "(b9,#9)".toList
  else if t1 then "(b9)".toList
  else if t2 then "(#9)".toList
  else []

/-- `PRINT_69_STYLE = "69"` (module preference in `rn_utils.py`). -/
def PRINT_69_STYLE : List Char := "69".toList

/-! ## Token builder (`rn_utils.pretty_from_rn_and_literal`) -/

def pretty_from_rn_and_literal (rn_fig literal : List Char) : List Char :=
  if rn_fig = [] then rn_fig
  else
    let lit_pretty := prettify_literal literal
    let rn := normalize_rn rn_fig
    match degreeHeadParse rn with
    | none => rn_fig
    | some (acc, DEG, qual_full) =>
      let qlow := invStrip (toLowerList qual_full)
      let lit_l := toLowerList lit_pretty
      let is_minMaj7 := litMinMaj7 lit_l
      let is_maj_fam := litMajFam lit_l || is_minMaj7
      let is_dim7 := litDim lit_l
      let is_half := litHalf lit_l
      let is_min_triad := minTriadHead lit_l
      let is_min7_lit := searchM7B lit_l
      let is_min6_lit := searchM6B lit_l
      let has_6_9 := has69lit lit_l
      let has_6_only := !has_6_9 && (endsWith6 lit_l || containsStr (" 6".toList) lit_l)
      let is_dom7_lit := isDom7Lit lit_l
      let is_min7 := is_min7_lit && !(is_maj_fam || is_half || is_dim7)
      let DEG_case :=
        if is_dom7_lit then DEG
        else
          if is_min7 || is_min6_lit || is_half || is_dim7 ||
             (litMinWord lit_l && !is_maj_fam) || is_min_triad
          then toLowerList DEG else DEG
      let base :=
        if is_dim7 then acc ++ DEG_case ++ "o7".toList
        else if is_half then acc ++ DEG_case ++ "ø7".toList
        else if is_minMaj7 then acc ++ DEG_case ++ "maj7".toList
        else if is_maj_fam then acc ++ DEG ++ "maj7".toList
        else if has_6_9 then
          if isLowerStr DEG_case || is_min_triad then acc ++ DEG_case ++ "-6".toList
          else acc ++ DEG ++ PRINT_69_STYLE
        else if has_6_only && !is_min6_lit then acc ++ DEG ++ "6".toList
        else if is_min6_lit then acc ++ DEG_case ++ "-6".toList
        else if is_min7 then acc ++ DEG_case ++ "-7".toList
        else if is_dom7_lit then acc ++ DEG ++ "7".toList
        else if is_min_triad then acc ++ DEG_case
        else
          if containsStr ("maj7".toList) qlow || containsStr ("maj".toList) qlow then
            acc ++ DEG ++ "maj7".toList
          else if containsStr ("ø7".toList) qlow then acc ++ DEG ++ "ø7".toList
          else if containsStr ("o7".toList) qlow && !containsStr ("ø".toList) qlow then
            acc ++ DEG ++ "o7".toList
          else if containsStr ("6/9".toList) qlow || containsStr ("69".toList) qlow then
            acc ++ DEG ++ PRINT_69_STYLE
          else if bare6Search false qlow then acc ++ DEG ++ "6".toList
          else if containsStr ("7".toList) qlow &&
                    !(containsStr ("maj".toList) qlow || containsStr ("ø7".toList) qlow ||
                      containsStr ("o7".toList) qlow) then
            acc ++ DEG ++ "7".toList
          else
            let qsimple := qsimpleStrip qlow
            if qsimple ≠ [] then acc ++ DEG_case ++ qsimple else acc ++ DEG_case
      base ++ tensSuffix lit_l

/-! ## Pattern scanner (`scan_rn_patterns.py`) -/

/-- `_degree_only`: the matched `accidental + degree` head, or empty. -/
def degree_only (tok : List Char) : List Char :=
  match degreeHeadParse tok with
  | some (a, d, _) => a ++ d
  | none => []

/-- `_suffix_only`: the token minus its degree head (the whole token when
no head matches). -/
def suffix_only (tok : List Char) : List Char :=
  match degreeHeadParse tok with
  | some (_, _, r) => r
  | none => tok

/-- `_is_major_family`: upper-case head and suffix among
`"", "6", "maj7", "6/9"`. -/
def is_major_family (tok : List Char) : Bool :=
  match degree_only tok with
  | [] => false
  | c :: _ =>
    c.isUpper &&
      (let suf := toLowerList (suffix_only tok)
       suf = [] || suf = "6".toList || suf = "maj7".toList || suf = "6/9".toList)

/-- `_is_minor_family`: head not upper-case and suffix among
`"", "-6", "-7", "maj7"`. -/
def is_minor_family (tok : List Char) : Bool :=
  match degree_only tok with
  | [] => false
  | c :: _ =>
    !c.isUpper &&
      (let suf := toLowerList (suffix_only tok)
       suf = [] || suf = "-6".toList || suf = "-7".toList || suf = "maj7".toList)

/-- `_is_dom7_family`: upper-case head, suffix contains `7` and none of
`maj`, `ø`, `o`. -/
def is_dom7_family (tok : List Char) : Bool :=
  match degree_only tok with
  | [] => false
  | c :: _ =>
    c.isUpper &&
      (let suf := toLowerList (suffix_only tok)
       containsStr ("7".toList) suf && !containsStr ("maj".toList) suf &&
         !containsStr ("ø".toList) suf && !containsStr ("o".toList) suf)

/-- The pattern-token quality alternation
`(?:maj7|-7|7|ø7|o7|6/9|-6|6)?` followed by `\*?$`. -/
def qualAlternatives : List (List Char) :=
  [ "maj7".toList, "-7".toList, "7".toList, "ø7".toList, "o7".toList,
    "6/9".toList, "-6".toList, "6".toList ]

def starEnd : List Char → Bool
  | [] => true
  | ['*'] => true
  | _ => false

/-- `_TOKEN_RE` full match: degree head (same alternation as
`_DEGREE_HEAD`), optional quality, optional `*`, end of string.  One of
the quality alternatives (or the empty quality) must leave exactly `""`
or `"*"`; since every successful parse accepts the same whole string,
trying the alternatives in order plus the empty quality is equivalent to
the regex's backtracking. -/
def tokenFullMatch (t : List Char) : Bool :=
  match degreeHeadParse t with
  | none => false
  | some (_, _, rest) =>
    qualAlternatives.any (fun q => q.isPrefixOf rest && starEnd (rest.drop q.length)) ||
      starEnd rest

/-- Python `str.split()` (split on whitespace runs, no empty pieces). -/
def splitWsAux : List Char → List Char → List (List Char)
  | [], acc => if acc = [] then [] else [acc.reverse]
  | c :: cs, acc =>
    if isSpaceChar c then
      if acc = [] then splitWsAux cs [] else acc.reverse :: splitWsAux cs []
    else splitWsAux cs (c :: acc)

def splitWs (l : List Char) : List (List Char) := splitWsAux l []

/-- The first token of the list failing `_TOKEN_RE`, if any (the Python
loop raises at the first failure). -/
def firstBadTok : List (List Char) → Option (List Char)
  | [] => none
  | t :: ts => if tokenFullMatch t then firstBadTok ts else some t

/-- The `SystemExit` message `Pattern error: Bad token syntax: '<t>'`. -/
def badTokMsg (t : List Char) : List Char :=
  "Pattern error: Bad token syntax: ".toList ++
    (Char.ofNat 39 :: t ++ [Char.ofNat 39])

/-- `parse_pattern`: split the pattern string and fail with the first
offending token (`SystemExit` modelled as `Except.error`); on success
return the token list. -/
def parse_pattern (pat : List Char) : Except (List Char) (List (List Char)) :=
  let toks := splitWs (trimWs pat)
  match firstBadTok toks with
  | some t => Except.error (badTokMsg t)
  | none => Except.ok toks

/-- One hit of the sequence scanner. -/
structure MatchHit where
  bar : Nat
  tokens : List (List Char)
  literals : List (List Char)
deriving DecidableEq, Repr

/-- One pattern element against one sequence token (`find_pattern_matches`
loop body): wildcard elements compare degree heads and dispatch on the
family selector, non-wildcard elements require exact equality. -/
def matchElem (ptok stok : List Char) : Bool :=
  if ptok.getLast? = some '*' then
    let base := ptok.dropLast
    if degree_only base ≠ degree_only stok then false
    else
      let suf := toLowerList (suffix_only base)
      if (match base with
          | c :: _ => c.isUpper
          | [] => false) then
        if suf = "7".toList then is_dom7_family stok else is_major_family stok
      else is_minor_family stok
  else stok = ptok

/-- Element-wise test of a pattern against a window (Python's
`zip` + `break` loop: stops at the shorter list, short-circuits on the
first mismatch). -/
def windowMatch : List (List Char) → List (Nat × List Char × List Char) → Bool
  | [], _ => true
  | _ :: _, [] => true
  | p :: ps, (_, stok, _) :: ws => matchElem p stok && windowMatch ps ws

/-- `find_pattern_matches`: for each start index in
`0 .. len(seq) - len(pat)` test the window; matching windows produce a
`MatchHit` (bar of the first window element, tokens, literals) in
increasing index order.  An empty pattern returns no hits. -/
def find_pattern_matches (seq : List (Nat × List Char × List Char))
    (pat_tokens : List (List Char)) : List MatchHit :=
  let n := pat_tokens.length
  if n = 0 then []
  else
    (List.range (seq.length + 1 - n)).filterMap (fun i =>
      let window := (seq.drop i).take n
      if windowMatch pat_tokens window then
        some ⟨(window.headD (0, [], [])).1,
              window.map (fun w => w.2.1), window.map (fun w => w.2.2)⟩
      else none)

/-- Written from the spec's words (§4.6): "for every starting index `i`
in `0 .. len(sequence)-len(pattern)`, test the contiguous window
`sequence[i .. i+len(pattern))` element-wise against `pattern` ... a
window is a hit only if every element matches.  Windows are tested
left-to-right; hits are reported in that order, one per qualifying start
index."  Kept for comparison with `find_pattern_matches`. -/
def scanSpec (seq : List (Nat × List Char × List Char))
    (pat : List (List Char)) : List MatchHit :=
  ((List.range (seq.length + 1 - pat.length)).filter (fun i =>
      (List.range pat.length).all (fun j =>
        matchElem (pat.getD j []) ((seq.getD (i + j) (0, [], [])).2.1)))).map
    (fun i =>
      ⟨(seq.getD i (0, [], [])).1,
       ((seq.drop i).take pat.length).map (fun w => w.2.1),
       ((seq.drop i).take pat.length).map (fun w => w.2.2)⟩)

/-- The pattern-compilation loop of `main`: every `-p` pattern is parsed
up front; the first `SystemExit` aborts with its message. -/
def parsePatternsLoop :
    List (List Char) → Except (List Char) (List (List Char × List (List Char)))
  | [] => Except.ok []
  | p :: ps =>
    match parse_pattern p with
    | Except.error e => Except.error e
    | Except.ok toks =>
      match parsePatternsLoop ps with
      | Except.error e => Except.error e
      | Except.ok rest => Except.ok ((p, toks) :: rest)

/-- Pure model of `main`'s driver structure: patterns are compiled before
the file loop runs, so a compilation failure yields an error and no
per-file scan output at all. -/
def runScan (patterns : List (List Char))
    (files : List (List (Nat × List Char × List Char))) :
    Except (List Char) (List (List (List MatchHit))) :=
  match parsePatternsLoop patterns with
  | Except.error e => Except.error e
  | Except.ok patlist =>
    Except.ok (files.map (fun seq => patlist.map (fun pt => find_pattern_matches seq pt.2)))

/-- Written from the words of claim C2: the literal contains a digit `7`
that is not the final character of an occurrence of `maj7`, `m7`, `ø7`
or `o7` (i.e. a `7` whose preceding characters are not `maj`, `m`, `ø`,
`o`). -/
def hasPlainSevenAux (p3 p2 p1 : Option Char) : List Char → Bool
  | [] => false
  | c :: cs =>
    (c = '7' &&
      !(p1 = some 'm' || p1 = some 'ø' || p1 = some 'o' ||
        (p3 = some 'm' && p2 = some 'a' && p1 = some 'j'))) ||
      hasPlainSevenAux p2 p1 (some c) cs

def hasPlainSeven (l : List Char) : Bool := hasPlainSevenAux none none none l

/-! ## Helper lemmas -/


theorem isPrefixOf_head {a b : Char} {as bs : List Char}
    (h : (a :: as).isPrefixOf (b :: bs) = true) : a = b := by
  simp only [List.isPrefixOf, Bool.and_eq_true] at h
  exact eq_of_beq h.1

theorem degreeAlt_mem {s d r : List Char} (h : degreeAlt s = some (d, r)) :
    d ∈ degreeAlternatives ∧ d.isPrefixOf s = true := by
  unfold degreeAlt at h
  cases hf : degreeAlternatives.find? (fun d => d.isPrefixOf s) with
  | none => rw [hf] at h; simp at h
  | some d0 =>
    rw [hf] at h
    simp only [Option.map_some', Option.some.injEq, Prod.mk.injEq] at h
    obtain ⟨hd, -⟩ := h
    subst hd
    have h1 := List.find?_some hf
    exact ⟨List.mem_of_find?_eq_some hf, h1⟩

theorem degreeAlt_upper {c : Char} {s d r : List Char}
    (hc : c = 'I' ∨ c = 'V') (h : degreeAlt (c :: s) = some (d, r)) :
    toUpperList d = d := by
  obtain ⟨hmem, hpre⟩ := degreeAlt_mem h
  simp only [degreeAlternatives, List.mem_cons, List.not_mem_nil, or_false] at hmem
  rcases hc with hc | hc <;> subst hc <;>
    rcases hmem with h1|h1|h1|h1|h1|h1|h1|h1|h1|h1|h1|h1|h1|h1 <;> subst h1 <;>
      first
        | rfl
        | exact absurd (isPrefixOf_head hpre) (by decide)

theorem degreeAlt_head {s d r : List Char} (h : degreeAlt s = some (d, r)) :
    ∃ c cs, s = c :: cs ∧ (c = 'I' ∨ c = 'V' ∨ c = 'i' ∨ c = 'v') := by
  obtain ⟨hmem, hpre⟩ := degreeAlt_mem h
  simp only [degreeAlternatives, List.mem_cons, List.not_mem_nil, or_false] at hmem
  cases s with
  | nil =>
    rcases hmem with h1|h1|h1|h1|h1|h1|h1|h1|h1|h1|h1|h1|h1|h1 <;> subst h1 <;>
      simp [List.isPrefixOf] at hpre
  | cons c cs =>
    refine ⟨c, cs, rfl, ?_⟩
    rcases hmem with h1|h1|h1|h1|h1|h1|h1|h1|h1|h1|h1|h1|h1|h1 <;> subst h1 <;>
      rw [← isPrefixOf_head hpre] <;> simp

theorem upper_head {d : List Char} (hmem : d ∈ degreeAlternatives) :
    ∃ cs, toUpperList d = 'I' :: cs ∨ toUpperList d = 'V' :: cs := by
  simp only [degreeAlternatives, List.mem_cons, List.not_mem_nil, or_false] at hmem
  rcases hmem with h|h|h|h|h|h|h|h|h|h|h|h|h|h <;> subst h <;>
    first
      | exact ⟨_, Or.inl rfl⟩
      | exact ⟨_, Or.inr rfl⟩

theorem degreeHeadParse_acc {t a d r : List Char}
    (h : degreeHeadParse t = some (a, d, r)) :
    (a = [] ∨ a = ['b'] ∨ a = ['#']) ∧ ∃ s, degreeAlt s = some (d, r) ∧ t = a ++ s := by
  cases t with
  | nil => simp [degreeHeadParse] at h
  | cons c cs =>
    simp only [degreeHeadParse] at h
    by_cases hbc : c = 'b' ∨ c = '#'
    · have hcond : (decide (c = 'b') || decide (c = '#')) = true := by
        rcases hbc with h1 | h1 <;> simp [h1]
      rw [if_pos hcond] at h
      cases halt : degreeAlt cs with
      | some p =>
        rw [halt] at h
        obtain ⟨d1, r1⟩ := p
        simp only [Option.some.injEq, Prod.mk.injEq] at h
        obtain ⟨ha, hd, hr⟩ := h
        subst ha; subst hd; subst hr
        refine ⟨by rcases hbc with h1 | h1 <;> simp [h1], cs, halt, rfl⟩
      | none =>
        rw [halt] at h
        cases halt2 : degreeAlt (c :: cs) with
        | none => rw [halt2] at h; simp at h
        | some p =>
          rw [halt2] at h
          obtain ⟨d1, r1⟩ := p
          simp only [Option.map_some', Option.some.injEq, Prod.mk.injEq] at h
          obtain ⟨ha, hd, hr⟩ := h
          subst hd; subst hr
          exact ⟨Or.inl ha.symm, c :: cs, halt2, by rw [← ha]; rfl⟩
    · have hcond : ¬((decide (c = 'b') || decide (c = '#')) = true) := by
        simp only [Bool.or_eq_true, decide_eq_true_eq]
        exact hbc
      rw [if_neg hcond] at h
      cases halt2 : degreeAlt (c :: cs) with
      | none => rw [halt2] at h; simp at h
      | some p =>
        rw [halt2] at h
        obtain ⟨d1, r1⟩ := p
        simp only [Option.map_some', Option.some.injEq, Prod.mk.injEq] at h
        obtain ⟨ha, hd, hr⟩ := h
        subst hd; subst hr
        exact ⟨Or.inl ha.symm, c :: cs, halt2, by rw [← ha]; rfl⟩

theorem degreeHeadParse_not_acc {c : Char} {cs a d r : List Char} (hc : ¬(c = 'b' ∨ c = '#'))
    (h : degreeHeadParse (c :: cs) = some (a, d, r)) :
    degreeAlt (c :: cs) = some (d, r) := by
  simp only [degreeHeadParse] at h
  have hcond : ¬((decide (c = 'b') || decide (c = '#')) = true) := by
    simp only [Bool.or_eq_true, decide_eq_true_eq]; exact hc
  rw [if_neg hcond] at h
  cases halt2 : degreeAlt (c :: cs) with
  | none => rw [halt2] at h; simp at h
  | some p =>
    rw [halt2] at h
    obtain ⟨d1, r1⟩ := p
    simp only [Option.map_some', Option.some.injEq, Prod.mk.injEq] at h
    obtain ⟨-, hd, hr⟩ := h
    rw [hd, hr]

theorem degreeHeadParse_acc_cons {c : Char} {cs a d r : List Char} (hc : c = 'b' ∨ c = '#')
    (h : degreeHeadParse (c :: cs) = some (a, d, r)) :
    degreeAlt cs = some (d, r) ∨ degreeAlt (c :: cs) = some (d, r) := by
  simp only [degreeHeadParse] at h
  have hcond : (decide (c = 'b') || decide (c = '#')) = true := by
    rcases hc with h1 | h1 <;> simp [h1]
  rw [if_pos hcond] at h
  cases halt : degreeAlt cs with
  | some p =>
    rw [halt] at h
    obtain ⟨d1, r1⟩ := p
    simp only [Option.some.injEq, Prod.mk.injEq] at h
    obtain ⟨-, hd, hr⟩ := h
    exact Or.inl (by rw [hd, hr])
  | none =>
    rw [halt] at h
    cases halt2 : degreeAlt (c :: cs) with
    | none => rw [halt2] at h; simp at h
    | some p =>
      rw [halt2] at h
      obtain ⟨d1, r1⟩ := p
      simp only [Option.map_some', Option.some.injEq, Prod.mk.injEq] at h
      obtain ⟨-, hd, hr⟩ := h
      exact Or.inr (by rw [hd, hr])

theorem normalize_deg_upper {fig acc DEG rest : List Char}
    (h : degreeHeadParse (normalize_rn fig) = some (acc, DEG, rest)) :
    toUpperList DEG = DEG := by
  simp only [normalize_rn] at h
  cases h0 : degreeHeadParse (runSub tryMaj7 (removeSpaces fig)) with
  | none => rw [h0] at h; simp [degreeHeadParse] at h
  | some p =>
    obtain ⟨a0, d0, q0⟩ := p
    rw [h0] at h
    simp only at h
    obtain ⟨hacc, s0, hs0, -⟩ := degreeHeadParse_acc h0
    obtain ⟨hmem0, -⟩ := degreeAlt_mem hs0
    obtain ⟨csU, hU⟩ := upper_head hmem0
    have hVI : ∀ (q1 : List Char), degreeAlt (toUpperList d0 ++ q1) = some (DEG, rest) →
        toUpperList DEG = DEG := by
      intro q1 hq
      rcases hU with hU | hU <;> rw [hU, List.cons_append] at hq
      · exact degreeAlt_upper (Or.inl rfl) hq
      · exact degreeAlt_upper (Or.inr rfl) hq
    rcases hacc with ha | ha | ha <;> subst ha
    · rw [List.nil_append] at h
      have hhead : ¬(('I' : Char) = 'b' ∨ ('I' : Char) = '#') := by decide
      have hhead2 : ¬(('V' : Char) = 'b' ∨ ('V' : Char) = '#') := by decide
      rcases hU with hU | hU <;> rw [hU, List.cons_append] at h
      · have := degreeHeadParse_not_acc hhead h
        rw [← List.cons_append, ← hU] at this
        exact hVI q0 this
      · have := degreeHeadParse_not_acc hhead2 h
        rw [← List.cons_append, ← hU] at this
        exact hVI q0 this
    · rw [List.cons_append, List.nil_append] at h
      rcases degreeHeadParse_acc_cons (by decide) h with halt | halt2
      · exact hVI q0 halt
      · obtain ⟨c2, cs2, hcons, hc2⟩ := degreeAlt_head halt2
        simp only [List.cons.injEq] at hcons
        rcases hc2 with h2 | h2 | h2 | h2 <;> rw [← hcons.1] at h2 <;> exact absurd h2 (by decide)
    · rw [List.cons_append, List.nil_append] at h
      rcases degreeHeadParse_acc_cons (by decide) h with halt | halt2
      · exact hVI q0 halt
      · obtain ⟨c2, cs2, hcons, hc2⟩ := degreeAlt_head halt2
        simp only [List.cons.injEq] at hcons
        rcases hc2 with h2 | h2 | h2 | h2 <;> rw [← hcons.1] at h2 <;> exact absurd h2 (by decide)

theorem searchM7B_contains {l : List Char} (h : searchM7B l = true) :
    containsStr ("m7".toList) l = true := by
  induction l with
  | nil => rw [searchM7B.eq_def] at h; exact absurd h (by simp)
  | cons c cs ih =>
    rw [searchM7B.eq_def] at h
    split at h
    · rename_i rest heq
      simp only [List.cons.injEq] at heq
      obtain ⟨hc, hcs⟩ := heq
      subst hc; subst hcs
      simp [containsStr, List.isPrefixOf]
    · rename_i heq
      simp only [List.cons.injEq] at heq
      obtain ⟨-, hcs⟩ := heq
      simp only [containsStr, Bool.or_eq_true]
      exact Or.inr (ih (by rw [hcs]; exact h))
    · rename_i heq
      exact absurd heq (by simp)

theorem firstBadTok_split {ts : List (List Char)} {t : List Char}
    (h : firstBadTok ts = some t) :
    ∃ pre post, ts = pre ++ t :: post ∧ (∀ u ∈ pre, tokenFullMatch u = true) ∧
      tokenFullMatch t = false := by
  induction ts with
  | nil => simp [firstBadTok] at h
  | cons a ts ih =>
    by_cases ha : tokenFullMatch a = true
    · rw [firstBadTok, if_pos ha] at h
      obtain ⟨pre, post, h1, h2, h3⟩ := ih h
      refine ⟨a :: pre, post, by rw [h1]; rfl, ?_, h3⟩
      intro u hu
      rcases List.mem_cons.mp hu with hu | hu
      · rw [hu]; exact ha
      · exact h2 u hu
    · rw [firstBadTok, if_neg ha] at h
      obtain rfl : a = t := by simpa using h
      exact ⟨[], ts, rfl, by simp, Bool.not_eq_true _ ▸ ha⟩

theorem firstBadTok_of_any {ts : List (List Char)}
    (h : ts.any (fun t => !tokenFullMatch t) = true) : ∃ t, firstBadTok ts = some t := by
  induction ts with
  | nil => simp at h
  | cons a ts ih =>
    by_cases ha : tokenFullMatch a = true
    · rw [List.any_cons] at h
      simp only [ha, Bool.not_true, Bool.false_or] at h
      obtain ⟨t, ht⟩ := ih h
      exact ⟨t, by rw [firstBadTok, if_pos ha, ht]⟩
    · exact ⟨a, by rw [firstBadTok, if_neg ha]⟩

theorem parsePatternsLoop_error {pats : List (List Char)} {p : List Char}
    (hp : p ∈ pats) (hbad : ∃ t, firstBadTok (splitWs (trimWs p)) = some t) :
    ∃ e, parsePatternsLoop pats = Except.error e := by
  induction pats with
  | nil => simp at hp
  | cons q qs ih =>
    rcases List.mem_cons.mp hp with hq | hq
    · subst hq
      obtain ⟨t, ht⟩ := hbad
      refine ⟨badTokMsg t, ?_⟩
      rw [parsePatternsLoop, parse_pattern, ht]
    · cases hpq : parse_pattern q with
      | error e => exact ⟨e, by rw [parsePatternsLoop, hpq]⟩
      | ok toks =>
        obtain ⟨e, he⟩ := ih hq
        exact ⟨e, by rw [parsePatternsLoop, hpq, he]⟩

theorem windowMatch_eq_all (ps : List (List Char)) :
    ∀ ws : List (Nat × List Char × List Char), ps.length ≤ ws.length →
      windowMatch ps ws =
        (List.range ps.length).all
          (fun j => matchElem (ps.getD j []) ((ws.getD j (0, [], [])).2.1)) := by
  induction ps with
  | nil => intro ws _; simp [windowMatch]
  | cons p ps ih =>
    intro ws hlen
    match ws with
    | [] => simp at hlen
    | w :: ws' =>
      obtain ⟨b, stok, lit⟩ := w
      simp only [windowMatch]
      rw [List.length_cons, List.range_succ_eq_map]
      simp only [List.all_cons, List.all_map]
      have h0 : (List.getD (p :: ps) 0 []) = p := rfl
      have h1 : ((List.getD ((b, stok, lit) :: ws') 0 (0, [], [])).2.1) = stok := rfl
      rw [h0, h1]
      have := ih ws' (by simpa using hlen)
      rw [this]
      congr 1

theorem all_congr_mem {α : Type} {l : List α} {f g : α → Bool}
    (h : ∀ x ∈ l, f x = g x) : l.all f = l.all g := by
  induction l with
  | nil => rfl
  | cons a t ih =>
    simp only [List.all_cons]
    rw [h a (List.mem_cons_self a t), ih (fun x hx => h x (List.mem_cons_of_mem a hx))]

theorem filterMap_ite {α β : Type} (p : α → Bool) (f : α → β) (l : List α) :
    (l.filterMap (fun a => if p a then some (f a) else none)) = (l.filter p).map f := by
  induction l with
  | nil => rfl
  | cons a t ih =>
    by_cases h : p a <;>
      simp [List.filterMap_cons, List.filter_cons, h, ih]

theorem window_headD {seq : List (Nat × List Char × List Char)} {i n : Nat}
    (hi : i < seq.length) (hn : 0 < n) :
    ((seq.drop i).take n).headD (0, [], []) = seq.getD i (0, [], []) := by
  have h0 : (seq.drop i)[0]? = seq[i]? := by
    rw [List.getElem?_drop, Nat.add_zero]
  cases hd : seq.drop i with
  | nil =>
    have hnone : seq[i]? = none := by rw [← h0, hd]; rfl
    rw [List.getElem?_eq_none_iff] at hnone
    omega
  | cons a t =>
    obtain ⟨m, rfl⟩ : ∃ m, n = m + 1 := ⟨n - 1, by omega⟩
    have ha : seq[i]? = some a := by rw [← h0, hd]; simp
    show a = seq.getD i (0, [], [])
    rw [List.getD_eq_getElem?_getD, ha]
    rfl

/-! ## Additional helper lemmas for the scanner claims -/

/-- Scanning a single-element sequence with a single-element pattern
produces one hit exactly when the element matches. -/
theorem find_single (p : List Char) (b : Nat) (s l : List Char) :
    find_pattern_matches [(b, s, l)] [p] =
      if matchElem p s = true then [⟨b, [s], [l]⟩] else [] := by
  have hw : windowMatch [p] [(b, s, l)] = matchElem p s := by
    show (matchElem p s && true) = matchElem p s
    rw [Bool.and_true]
  by_cases h : matchElem p s = true
  · rw [if_pos h]
    simp [find_pattern_matches, List.range_succ, hw, h]
  · rw [if_neg h]
    have h' : matchElem p s = false := by
      cases hx : matchElem p s
      · rfl
      · exact absurd hx h
    simp [find_pattern_matches, List.range_succ, hw, h']

/-- The wildcard pattern element `V7*` matches a candidate token exactly
when the candidate's degree head is `V` and it is dominant-family. -/
theorem matchElem_V7star (c : List Char) :
    matchElem ("V7*".toList) c =
      (decide (degree_only c = "V".toList) && is_dom7_family c) := by
  show (if ("V".toList : List Char) ≠ degree_only c then false else is_dom7_family c) = _
  by_cases hd : degree_only c = "V".toList
  · rw [if_neg (by simp [hd])]
    simp [hd]
  · rw [if_pos (fun h => hd h.symm)]
    have hd' : decide (degree_only c = "V".toList) = false := by
      simpa using hd
    rw [hd', Bool.false_and]

/-! ## Claim theorems -/

/-- C1 (counterexample): the tokenization pipeline is not idempotent.
With raw figure `vi7`, literal `Am7` produces the canonical token
`vi-7`; re-running the pipeline on that token's own text yields `VI7`
(the `-7` suffix re-triggers the plain-7 dominant rule), not `vi-7`.
Likewise `vi-6` re-runs to `VI6` and the bare minor token `vi` re-runs
to `VI`. -/
theorem C1_counterexample :
    pretty_from_rn_and_literal ("vi7".toList) ("Am7".toList) = "vi-7".toList ∧
    pretty_from_rn_and_literal ("vi7".toList) ("vi-7".toList) = "VI7".toList ∧
    ("VI7".toList : List Char) ≠ "vi-7".toList ∧
    pretty_from_rn_and_literal ("vi6".toList) ("Am6".toList) = "vi-6".toList ∧
    pretty_from_rn_and_literal ("vi6".toList) ("vi-6".toList) = "VI6".toList ∧
    pretty_from_rn_and_literal ("vi".toList) ("Am".toList) = "vi".toList ∧
    pretty_from_rn_and_literal ("vi".toList) ("vi".toList) = "VI".toList := by
  refine ⟨by decide, by decide, by decide, by decide, by decide, by decide, by decide⟩

/-- C1 (amended): the pipeline is idempotent on the dominant,
major-maj7, half-diminished, diminished, major-sixth and plain-major
token forms (verified on representative figure/literal pairs); it is not
idempotent on minor-family tokens (see the counterexample). -/
theorem C1_amended_theorem :
    pretty_from_rn_and_literal ("v7".toList)
        (pretty_from_rn_and_literal ("v7".toList) ("G7".toList)) =
      pretty_from_rn_and_literal ("v7".toList) ("G7".toList) ∧
    pretty_from_rn_and_literal ("Imaj7".toList)
        (pretty_from_rn_and_literal ("Imaj7".toList) ("Cmaj7".toList)) =
      pretty_from_rn_and_literal ("Imaj7".toList) ("Cmaj7".toList) ∧
    pretty_from_rn_and_literal ("viiø7".toList)
        (pretty_from_rn_and_literal ("viiø7".toList) ("Bm7b5".toList)) =
      pretty_from_rn_and_literal ("viiø7".toList) ("Bm7b5".toList) ∧
    pretty_from_rn_and_literal ("viio7".toList)
        (pretty_from_rn_and_literal ("viio7".toList) ("Bdim7".toList)) =
      pretty_from_rn_and_literal ("viio7".toList) ("Bdim7".toList) ∧
    pretty_from_rn_and_literal ("I6".toList)
        (pretty_from_rn_and_literal ("I6".toList) ("C6".toList)) =
      pretty_from_rn_and_literal ("I6".toList) ("C6".toList) ∧
    pretty_from_rn_and_literal ("I".toList)
        (pretty_from_rn_and_literal ("I".toList) ("C".toList)) =
      pretty_from_rn_and_literal ("I".toList) ("C".toList) := by
  refine ⟨by decide, by decide, by decide, by decide, by decide, by decide⟩

/-- C2 (counterexample): the literal `C°7` contains a plain digit 7 in
the claim's sense (not part of `maj7`, `m7`, `ø7`, `o7`), and the raw
degree head `vii` parses, yet the emitted token is `VIIo7` (the
diminished rule on `°7` fires first), whose suffix is `o7`, not `7`. -/
theorem C2_counterexample :
    hasPlainSeven (toLowerList (prettify_literal ("C°7".toList))) = true ∧
    degreeHeadParse (normalize_rn ("vii".toList)) = some ([], "VII".toList, []) ∧
    pretty_from_rn_and_literal ("vii".toList) ("C°7".toList) = "VIIo7".toList ∧
    ("VIIo7".toList : List Char) ≠ ("VII".toList : List Char) ++ "7".toList := by
  refine ⟨by decide, by decide, by decide, by decide⟩

/-- C2 (amended): when the normalized literal satisfies the dominant
test (`is_dom7_lit`) and no earlier classification rule fires (no
diminished, half-diminished, minor-maj7 or major-family marker, no 6/9
or sixth marker, no `m6`), and the degree head parses, the token is
`accidental ++ DEGREE ++ "7"` plus the tension annotation, with the
degree upper-case regardless of the raw degree head's case. -/
theorem C2_amended_theorem (fig lit acc DEG rest : List Char)
    (hparse : degreeHeadParse (normalize_rn fig) = some (acc, DEG, rest))
    (hdom : isDom7Lit (toLowerList (prettify_literal lit)) = true)
    (hdim : litDim (toLowerList (prettify_literal lit)) = false)
    (hhalf : litHalf (toLowerList (prettify_literal lit)) = false)
    (hmm7 : litMinMaj7 (toLowerList (prettify_literal lit)) = false)
    (hmaj : litMajFam (toLowerList (prettify_literal lit)) = false)
    (h69 : has69lit (toLowerList (prettify_literal lit)) = false)
    (h6e : endsWith6 (toLowerList (prettify_literal lit)) = false)
    (h6s : containsStr (" 6".toList) (toLowerList (prettify_literal lit)) = false)
    (hm6 : searchM6B (toLowerList (prettify_literal lit)) = false) :
    pretty_from_rn_and_literal fig lit =
      acc ++ DEG ++ "7".toList ++ tensSuffix (toLowerList (prettify_literal lit)) ∧
    toUpperList DEG = DEG := by
  refine ⟨?_, normalize_deg_upper hparse⟩
  have hfig : fig ≠ [] := by
    intro hf
    subst hf
    rw [show degreeHeadParse (normalize_rn []) = none from rfl] at hparse
    exact Option.noConfusion hparse
  have hm7 : searchM7B (toLowerList (prettify_literal lit)) = false := by
    cases hsm : searchM7B (toLowerList (prettify_literal lit)) with
    | false => rfl
    | true =>
      have hc := searchM7B_contains hsm
      rw [isDom7Lit, hc] at hdom
      simp at hdom
  simp only [pretty_from_rn_and_literal, if_neg hfig, hparse]
  simp only [hdom, hdim, hhalf, hmm7, hmaj, h69, h6e, h6s, hm6, hm7]
  simp [List.append_assoc]

/-- C2 (witness): raw lower-case degree head `v` with literal `D7sus4`
satisfies every hypothesis and yields the token `V7`. -/
theorem C2_amended_witness :
    pretty_from_rn_and_literal ("v".toList) ("D7sus4".toList) =
      ([] : List Char) ++ "V".toList ++ "7".toList ++
        tensSuffix (toLowerList (prettify_literal ("D7sus4".toList))) ∧
    toUpperList ("V".toList) = "V".toList :=
  C2_amended_theorem ("v".toList) ("D7sus4".toList) [] ("V".toList) []
    (by decide) (by decide) (by decide) (by decide) (by decide) (by decide)
    (by decide) (by decide) (by decide) (by decide)

/-- C3 (counterexample): with an empty literal and the unresolvable raw
figure `vi`, the emitted token is `VI`, not `vi` — the raw degree head's
case is not preserved, because `normalize_rn` upper-cases the degree. -/
theorem C3_counterexample :
    pretty_from_rn_and_literal ("vi".toList) [] = "VI".toList ∧
    ("VI".toList : List Char) ≠ "vi".toList := by
  refine ⟨by decide, by decide⟩

/-- C3 (amended): for an empty literal whose raw quality tail resolves
no family (none of the fallback markers occur in the inversion-stripped
lower-cased tail and its `qsimple` residue is empty), the token is the
bare degree head with the degree UPPER-cased (raw case not
preserved). -/
theorem C3_amended_theorem (fig acc DEG rest : List Char)
    (hparse : degreeHeadParse (normalize_rn fig) = some (acc, DEG, rest))
    (hmaj7 : containsStr ("maj7".toList) (invStrip (toLowerList rest)) = false)
    (hmaj : containsStr ("maj".toList) (invStrip (toLowerList rest)) = false)
    (hhd : containsStr ("ø7".toList) (invStrip (toLowerList rest)) = false)
    (ho7 : containsStr ("o7".toList) (invStrip (toLowerList rest)) = false)
    (h69a : containsStr ("6/9".toList) (invStrip (toLowerList rest)) = false)
    (h69b : containsStr ("69".toList) (invStrip (toLowerList rest)) = false)
    (h6 : bare6Search false (invStrip (toLowerList rest)) = false)
    (h7 : containsStr ("7".toList) (invStrip (toLowerList rest)) = false)
    (hq : qsimpleStrip (invStrip (toLowerList rest)) = []) :
    pretty_from_rn_and_literal fig [] = acc ++ DEG ∧ toUpperList DEG = DEG := by
  refine ⟨?_, normalize_deg_upper hparse⟩
  have hfig : fig ≠ [] := by
    intro hf
    subst hf
    rw [show degreeHeadParse (normalize_rn []) = none from rfl] at hparse
    exact Option.noConfusion hparse
  simp only [pretty_from_rn_and_literal, if_neg hfig, hparse]
  simp only [show prettify_literal [] = [] from rfl]
  simp only [show toLowerList [] = ([] : List Char) from rfl]
  simp only [show litMinMaj7 [] = false from rfl, show litMajFam [] = false from rfl,
    show litDim [] = false from rfl, show litHalf [] = false from rfl,
    show minTriadHead [] = false from rfl, show searchM7B [] = false from rfl,
    show searchM6B [] = false from rfl, show has69lit [] = false from rfl,
    show endsWith6 [] = false from rfl,
    show containsStr (" 6".toList) [] = false from rfl,
    show isDom7Lit [] = false from rfl, show litMinWord [] = false from rfl,
    show tensSuffix [] = ([] : List Char) from rfl]
  simp only [hmaj7, hmaj, hhd, ho7, h69a, h69b, h6, h7, hq]
  simp

/-- C3 (witness): figure `vi` (lower-case raw head, empty quality tail)
with an empty literal yields `VI`. -/
theorem C3_amended_witness :
    pretty_from_rn_and_literal ("vi".toList) [] = ([] : List Char) ++ "VI".toList ∧
    toUpperList ("VI".toList) = "VI".toList :=
  C3_amended_theorem ("vi".toList) [] ("VI".toList) []
    (by decide) (by decide) (by decide) (by decide) (by decide) (by decide)
    (by decide) (by decide) (by decide) (by decide)

/-- C4 (code bug, evaluation at the failing input): the builder renders
the 6/9 quality as `I69` (with `PRINT_69_STYLE = "69"`), but
`_is_major_family` accepts only the suffixes `""`, `6`, `maj7`, `6/9`,
so the wildcard pattern `I*` fails to match `I69` — although it does
match `I`, `I6` and `Imaj7`, and the code's own comment lists `I69`
among the tokens `I*` should match. -/
theorem C4_code_evaluation :
    pretty_from_rn_and_literal ("I".toList) ("C6/9".toList) = "I69".toList ∧
    PRINT_69_STYLE = "69".toList ∧
    is_major_family ("I".toList) = true ∧
    is_major_family ("I6".toList) = true ∧
    is_major_family ("Imaj7".toList) = true ∧
    is_major_family ("I69".toList) = false ∧
    find_pattern_matches [(1, "I69".toList, "C6/9".toList)] ["I*".toList] = [] ∧
    find_pattern_matches [(1, "I6".toList, "C6".toList)] ["I*".toList] =
      [⟨1, ["I6".toList], ["C6".toList]⟩] ∧
    tokenFullMatch ("I*".toList) = true := by
  refine ⟨by decide, by decide, by decide, by decide, by decide, by decide, by decide,
    by decide, by decide⟩

/-- C5: the wildcard pattern `V7*` hits a one-token sequence exactly
when the candidate has degree head `V` (same degree, no accidental) and
dominant-seven family; in particular it matches `V7` and `V7(b9)` but
not `Vmaj7` or `viiø7`. -/
theorem C5_theorem :
    (∀ (bar : Nat) (lit c : List Char),
       find_pattern_matches [(bar, c, lit)] ["V7*".toList] =
         (if degree_only c = "V".toList ∧ is_dom7_family c = true
          then [⟨bar, [c], [lit]⟩] else [])) ∧
    find_pattern_matches [(1, "V7".toList, [])] ["V7*".toList] =
      [⟨1, ["V7".toList], [[]]⟩] ∧
    find_pattern_matches [(1, "V7(b9)".toList, [])] ["V7*".toList] =
      [⟨1, ["V7(b9)".toList], [[]]⟩] ∧
    find_pattern_matches [(1, "Vmaj7".toList, [])] ["V7*".toList] = [] ∧
    find_pattern_matches [(1, "viiø7".toList, [])] ["V7*".toList] = [] := by
  refine ⟨?_, by decide, by decide, by decide, by decide⟩
  intro bar lit c
  rw [find_single, matchElem_V7star]
  apply if_congr _ rfl rfl
  rw [Bool.and_eq_true, decide_eq_true_eq]

/-- C6: whenever some whitespace-separated token of a pattern string
violates the token grammar, `parse_pattern` fails with an error naming
the first offending token (all tokens before it satisfy the grammar) and
returns no token list; and in a whole run (`runScan`, the pure model of
`main`), any syntactically invalid pattern makes the run fail before any
file is scanned. -/
theorem C6_theorem :
    (∀ p : List Char,
       (splitWs (trimWs p)).any (fun t => !tokenFullMatch t) = true →
       ∃ t pre post, splitWs (trimWs p) = pre ++ t :: post ∧
         (∀ u ∈ pre, tokenFullMatch u = true) ∧ tokenFullMatch t = false ∧
         parse_pattern p = Except.error (badTokMsg t)) ∧
    (∀ (pats : List (List Char)) (files : List (List (Nat × List Char × List Char)))
       (p : List Char), p ∈ pats →
       (splitWs (trimWs p)).any (fun t => !tokenFullMatch t) = true →
       ∃ e, runScan pats files = Except.error e) := by
  constructor
  · intro p hany
    obtain ⟨t, ht⟩ := firstBadTok_of_any hany
    obtain ⟨pre, post, h1, h2, h3⟩ := firstBadTok_split ht
    exact ⟨t, pre, post, h1, h2, h3, by rw [parse_pattern, ht]⟩
  · intro pats files p hp hany
    obtain ⟨e, he⟩ := parsePatternsLoop_error hp (firstBadTok_of_any hany)
    exact ⟨e, by rw [runScan, he]⟩

/-- C6 (witness): the pattern string `I8 V7` contains the ungrammatical
token `I8`; compilation fails naming it, and the whole run errors. -/
theorem C6_theorem_witness :
    (∃ t pre post, splitWs (trimWs ("I8 V7".toList)) = pre ++ t :: post ∧
       (∀ u ∈ pre, tokenFullMatch u = true) ∧ tokenFullMatch t = false ∧
       parse_pattern ("I8 V7".toList) = Except.error (badTokMsg t)) ∧
    (∃ e, runScan ["I8 V7".toList] [[(1, "V7".toList, [])]] = Except.error e) :=
  ⟨C6_theorem.1 ("I8 V7".toList) (by decide),
   C6_theorem.2 ["I8 V7".toList] [[(1, "V7".toList, [])]] ("I8 V7".toList)
     (by decide) (by decide)⟩

/-- C7: for every token sequence and non-empty compiled pattern, the
scanner returns exactly the list described by the spec: one hit per
start index `i` in `0 .. len(seq) - len(pat)` whose window matches
element-wise, in increasing index order, overlapping hits kept. -/
theorem C7_theorem (seq : List (Nat × List Char × List Char)) (pat : List (List Char))
    (hp : pat ≠ []) : find_pattern_matches seq pat = scanSpec seq pat := by
  have hn : ¬(pat.length = 0) := by simpa [List.length_eq_zero] using hp
  have hn1 : 0 < pat.length := Nat.pos_of_ne_zero hn
  unfold find_pattern_matches scanSpec
  rw [if_neg hn]
  simp only []
  rw [filterMap_ite (fun i => windowMatch pat ((seq.drop i).take pat.length))
    (fun i => (⟨(((seq.drop i).take pat.length).headD (0, [], [])).1,
               ((seq.drop i).take pat.length).map (fun w => w.2.1),
               ((seq.drop i).take pat.length).map (fun w => w.2.2)⟩ : MatchHit))]
  have hfil : (List.range (seq.length + 1 - pat.length)).filter
      (fun i => windowMatch pat ((seq.drop i).take pat.length)) =
      (List.range (seq.length + 1 - pat.length)).filter
      (fun i => (List.range pat.length).all
        (fun j => matchElem (pat.getD j []) ((seq.getD (i + j) (0, [], [])).2.1))) := by
    apply List.filter_congr
    intro i hi
    rw [List.mem_range] at hi
    have hile : i + pat.length ≤ seq.length := by omega
    have hwl : ((seq.drop i).take pat.length).length = pat.length := by
      rw [List.length_take, List.length_drop]
      omega
    rw [windowMatch_eq_all pat _ (by rw [hwl])]
    apply all_congr_mem
    intro j hj
    rw [List.mem_range] at hj
    have hgd : ((seq.drop i).take pat.length).getD j (0, [], []) =
        seq.getD (i + j) (0, [], []) := by
      rw [List.getD_eq_getElem?_getD, List.getD_eq_getElem?_getD,
        List.getElem?_take_of_lt hj, List.getElem?_drop]
    rw [hgd]
  rw [hfil]
  apply List.map_congr_left
  intro i hi
  rw [List.mem_filter, List.mem_range] at hi
  have hiL : i < seq.length := by omega
  rw [window_headD hiL hn1]

/-- C7 (witness): a concrete four-token sequence scanned with the
two-element pattern `V7* I`. -/
theorem C7_theorem_witness :
    (["V7*".toList, "I".toList] : List (List Char)) ≠ [] ∧
    find_pattern_matches
        [(1, "V7".toList, "G7".toList), (2, "I".toList, "C".toList),
         (3, "V7".toList, []), (4, "I".toList, [])]
        ["V7*".toList, "I".toList] =
      scanSpec
        [(1, "V7".toList, "G7".toList), (2, "I".toList, "C".toList),
         (3, "V7".toList, []), (4, "I".toList, [])]
        ["V7*".toList, "I".toList] :=
  ⟨by decide,
   C7_theorem
     [(1, "V7".toList, "G7".toList), (2, "I".toList, "C".toList),
      (3, "V7".toList, []), (4, "I".toList, [])]
     ["V7*".toList, "I".toList] (by decide)⟩

/-- C8 (counterexample): `_root_plus_minus_to_acc` rewrites `E-x` to
`Ebx` although the `-` is followed by the letter `x`, not a separator or
end of string — contradicting the claim that the swap happens only
before a separator/end. -/
theorem C8_counterexample :
    root_plus_minus_to_acc ("E-x".toList) = "Ebx".toList ∧
    prettify_literal ("E-x".toList) = "Ebx".toList ∧
    ("Ebx".toList : List Char) ≠ "E-x".toList := by
  refine ⟨by decide, by decide, by decide⟩

/-- C8 (amended): the swap requires only that the pitch letter sit at a
word boundary and be immediately followed by `-`/`+`; what follows the
sign is never inspected.  `E-…` always becomes `Eb…` and `F+…` becomes
`F#…` for any continuation, a letter preceded by a word character is
never rewritten (`xE-…` unchanged), and `E- → Eb`, `F+ → F#`,
`Amin7` unchanged hold as before. -/
theorem C8_amended_theorem :
    (∀ rest : List Char,
       root_plus_minus_to_acc ('E' :: '-' :: rest) =
         'E' :: 'b' :: root_plus_minus_to_acc rest) ∧
    (∀ rest : List Char,
       root_plus_minus_to_acc ('F' :: '+' :: rest) =
         'F' :: '#' :: root_plus_minus_to_acc rest) ∧
    (∀ rest : List Char,
       root_plus_minus_to_acc ('x' :: 'E' :: '-' :: rest) =
         'x' :: 'E' :: '-' :: root_plus_minus_to_acc rest) ∧
    root_plus_minus_to_acc ("E-".toList) = "Eb".toList ∧
    root_plus_minus_to_acc ("F+".toList) = "F#".toList ∧
    prettify_literal ("Amin7".toList) = "Amin7".toList := by
  refine ⟨?_, ?_, ?_, by decide, by decide, by decide⟩
  · intro rest
    rfl
  · intro rest
    rfl
  · intro rest
    cases rest <;> rfl

/-- C9 (counterexample): `Am7add11` contains `m7` and matches no
diminished / half-diminished / minor-maj7 / major-family marker, yet the
emitted token is the bare `vi` (the `m7\b` regex requires a word
boundary after the 7, and `add11` blocks it), not `vi-7`; and
`Am7 6/9` (boundary present) yields `vi-6` because the 6/9 rule
precedes the minor-seven rule. -/
theorem C9_counterexample :
    containsStr ("m7".toList) (toLowerList (prettify_literal ("Am7add11".toList))) = true ∧
    litDim (toLowerList (prettify_literal ("Am7add11".toList))) = false ∧
    litHalf (toLowerList (prettify_literal ("Am7add11".toList))) = false ∧
    litMinMaj7 (toLowerList (prettify_literal ("Am7add11".toList))) = false ∧
    litMajFam (toLowerList (prettify_literal ("Am7add11".toList))) = false ∧
    pretty_from_rn_and_literal ("vi7".toList) ("Am7add11".toList) = "vi".toList ∧
    ("vi".toList : List Char) ≠ "vi-7".toList ∧
    containsStr ("m7".toList) (toLowerList (prettify_literal ("Am7 6/9".toList))) = true ∧
    litDim (toLowerList (prettify_literal ("Am7 6/9".toList))) = false ∧
    litHalf (toLowerList (prettify_literal ("Am7 6/9".toList))) = false ∧
    litMinMaj7 (toLowerList (prettify_literal ("Am7 6/9".toList))) = false ∧
    litMajFam (toLowerList (prettify_literal ("Am7 6/9".toList))) = false ∧
    pretty_from_rn_and_literal ("vi7".toList) ("Am7 6/9".toList) = "vi-6".toList ∧
    ("vi-6".toList : List Char) ≠ "vi-7".toList := by
  refine ⟨by decide, by decide, by decide, by decide, by decide, by decide, by decide,
    by decide, by decide, by decide, by decide, by decide, by decide, by decide⟩

/-- C9 (amended): when the literal contains `m7` followed by a word
boundary (`searchM7B`), none of the diminished / half-diminished /
minor-maj7 / major-family markers, no 6/9 or sixth marker and no `m6`,
and the degree head parses, classification is MinorSeven: the token is
`accidental ++ lowercase degree ++ "-7"` plus the tension annotation. -/
theorem C9_amended_theorem (fig lit acc DEG rest : List Char)
    (hparse : degreeHeadParse (normalize_rn fig) = some (acc, DEG, rest))
    (hm7 : searchM7B (toLowerList (prettify_literal lit)) = true)
    (hdim : litDim (toLowerList (prettify_literal lit)) = false)
    (hhalf : litHalf (toLowerList (prettify_literal lit)) = false)
    (hmm7 : litMinMaj7 (toLowerList (prettify_literal lit)) = false)
    (hmaj : litMajFam (toLowerList (prettify_literal lit)) = false)
    (h69 : has69lit (toLowerList (prettify_literal lit)) = false)
    (h6e : endsWith6 (toLowerList (prettify_literal lit)) = false)
    (h6s : containsStr (" 6".toList) (toLowerList (prettify_literal lit)) = false)
    (hm6 : searchM6B (toLowerList (prettify_literal lit)) = false) :
    pretty_from_rn_and_literal fig lit =
      acc ++ toLowerList DEG ++ "-7".toList ++
        tensSuffix (toLowerList (prettify_literal lit)) := by
  have hfig : fig ≠ [] := by
    intro hf
    subst hf
    rw [show degreeHeadParse (normalize_rn []) = none from rfl] at hparse
    exact Option.noConfusion hparse
  have hdom : isDom7Lit (toLowerList (prettify_literal lit)) = false := by
    have hc := searchM7B_contains hm7
    rw [isDom7Lit, hc]
    simp
  simp only [pretty_from_rn_and_literal, if_neg hfig, hparse]
  simp only [hm7, hdim, hhalf, hmm7, hmaj, h69, h6e, h6s, hm6, hdom]
  simp [List.append_assoc]

/-- C9 (witness): figure `vi7` with literal `Am7` (the `m7` is at the
end of the word, so the boundary holds) yields `vi-7`. -/
theorem C9_amended_witness :
    pretty_from_rn_and_literal ("vi7".toList) ("Am7".toList) =
      ([] : List Char) ++ toLowerList ("VI".toList) ++ "-7".toList ++
        tensSuffix (toLowerList (prettify_literal ("Am7".toList))) :=
  C9_amended_theorem ("vi7".toList) ("Am7".toList) [] ("VI".toList) ("7".toList)
    (by decide) (by decide) (by decide) (by decide) (by decide) (by decide)
    (by decide) (by decide) (by decide) (by decide)

/-- C10: compiling an empty or whitespace-only pattern string succeeds
with an empty token sequence, and scanning any sequence with an empty
compiled pattern returns no hits. -/
theorem C10_theorem :
    parse_pattern [] = Except.ok [] ∧
    parse_pattern ("   ".toList) = Except.ok [] ∧
    ∀ seq : List (Nat × List Char × List Char), find_pattern_matches seq [] = [] :=
  ⟨rfl, rfl, fun _ => rfl⟩
